import Mathlib

/-!
Verification of the progress store, pipeline controller and caption sub-pipeline
of the brainrot-app repository, against a shallow Lean embedding of its
TypeScript source. JavaScript numbers are modelled as rationals, JavaScript
strings occurring in parsing code as lists of characters, and the per-project
`metadata.json` / `segments.json` files as optional values (`none` = the file
is absent or unreadable).
-/

set_option linter.unusedVariables false

namespace Brainrot

/-- Project lifecycle statuses, from the `ProjectStatus` enum referenced
throughout `src` (members as used by the routes). -/
inductive ProjectStatus where
  | INITIALIZING
  | INITIALIZED
  | INITIALIZE_ERROR
  | DOWNLOADING
  | DOWNLOADED
  | DOWNLOAD_ERROR
  | MERGING
  | MERGED
  | MERGING_ERROR
  | SEGMENTING
  | SEGMENTED
  | SEGMENTING_ERROR
  | CAPTIONING
  | CAPTIONED
  deriving DecidableEq

/-- JavaScript object assignment `progress[processId] = value` on the progress
map: overwrite the value of an existing key in place, otherwise append the new
key at the end (JS object key insertion order). -/
def setEntry : List (String × ℚ) → String → ℚ → List (String × ℚ)
  | [], k, v => [(k, v)]
  | (k0, v0) :: rest, k, v =>
      if k0 = k then (k0, v) :: rest else (k0, v0) :: setEntry rest k v

/-- JavaScript property read `progress[processId]`: the value of the first
matching key, `none` when the key is absent. -/
def getEntry : List (String × ℚ) → String → Option ℚ
  | [], _ => none
  | (k0, v0) :: rest, k => if k0 = k then some v0 else getEntry rest k

/-- The per-project `metadata.json` record, with the fields written by the
download / merge / split routes and `src/lib/utils/project` (`src/unnamed/part_010`). -/
structure ProjectMetadata where
  id : String
  createdAt : String
  status : ProjectStatus
  videoUrl : String
  audioUrl : String
  startTime : ℚ
  endTime : ℚ
  audioStartTime : ℚ
  audioEndTime : ℚ
  currentProcess : Option String
  downloadProcessId : Option String
  mergeProcessId : Option String
  splitProcessId : Option String
  downloadCompletedAt : Option String
  mergeCompletedAt : Option String
  splitCompletedAt : Option String
  videoDuration : Option ℚ
  audioDuration : Option ℚ
  totalDuration : Option ℚ
  segments : Option ℕ
  currentSegment : Option ℕ
  totalSegments : Option ℕ
  error : Option String
  progress : Option (List (String × ℚ))
  deriving DecidableEq

/-- A `Partial<ProjectMetadata>` updates object as passed to
`updateProjectMetadata`: `none` = the key is absent from the updates object.
For fields that are themselves optional in the record, `some none` models a key
that is present but explicitly set to `undefined` (which clears the field on
spread, as `updateProjectStatus` does for `error`). -/
structure MetadataUpdates where
  id : Option String := none
  createdAt : Option String := none
  status : Option ProjectStatus := none
  videoUrl : Option String := none
  audioUrl : Option String := none
  startTime : Option ℚ := none
  endTime : Option ℚ := none
  audioStartTime : Option ℚ := none
  audioEndTime : Option ℚ := none
  currentProcess : Option (Option String) := none
  downloadProcessId : Option (Option String) := none
  mergeProcessId : Option (Option String) := none
  splitProcessId : Option (Option String) := none
  downloadCompletedAt : Option (Option String) := none
  mergeCompletedAt : Option (Option String) := none
  splitCompletedAt : Option (Option String) := none
  videoDuration : Option (Option ℚ) := none
  audioDuration : Option (Option ℚ) := none
  totalDuration : Option (Option ℚ) := none
  segments : Option (Option ℕ) := none
  currentSegment : Option (Option ℕ) := none
  totalSegments : Option (Option ℕ) := none
  error : Option (Option String) := none
  progress : Option (Option (List (String × ℚ))) := none

/-- The JavaScript object spread `{ ...metadata, ...updates }` performed by
`updateProjectMetadata`: a key present in `updates` (even with value
`undefined`) replaces the record field, an absent key leaves it unchanged. -/
def applyUpdates (m : ProjectMetadata) (u : MetadataUpdates) : ProjectMetadata where
  id := u.id.getD m.id
  createdAt := u.createdAt.getD m.createdAt
  status := u.status.getD m.status
  videoUrl := u.videoUrl.getD m.videoUrl
  audioUrl := u.audioUrl.getD m.audioUrl
  startTime := u.startTime.getD m.startTime
  endTime := u.endTime.getD m.endTime
  audioStartTime := u.audioStartTime.getD m.audioStartTime
  audioEndTime := u.audioEndTime.getD m.audioEndTime
  currentProcess := u.currentProcess.getD m.currentProcess
  downloadProcessId := u.downloadProcessId.getD m.downloadProcessId
  mergeProcessId := u.mergeProcessId.getD m.mergeProcessId
  splitProcessId := u.splitProcessId.getD m.splitProcessId
  downloadCompletedAt := u.downloadCompletedAt.getD m.downloadCompletedAt
  mergeCompletedAt := u.mergeCompletedAt.getD m.mergeCompletedAt
  splitCompletedAt := u.splitCompletedAt.getD m.splitCompletedAt
  videoDuration := u.videoDuration.getD m.videoDuration
  audioDuration := u.audioDuration.getD m.audioDuration
  totalDuration := u.totalDuration.getD m.totalDuration
  segments := u.segments.getD m.segments
  currentSegment := u.currentSegment.getD m.currentSegment
  totalSegments := u.totalSegments.getD m.totalSegments
  error := u.error.getD m.error
  progress := u.progress.getD m.progress

/-- Reading `metadata.json` (`getProjectMetadata` in `src/unnamed/part_010`):
returns `null` when the file does not exist (or fails to parse), else the
record. The store value is the current on-disk record. -/
def getProjectMetadata (store : Option ProjectMetadata) : Option ProjectMetadata :=
  store

/-- The `updateProjectMetadata` function of `src/unnamed/part_010`: returns
`false` without writing when the metadata file does not exist, otherwise
re-reads the record, spreads the updates over it, writes it back and returns
`true`. -/
def updateProjectMetadata (store : Option ProjectMetadata) (updates : MetadataUpdates) :
    Option ProjectMetadata × Bool :=
  match store with
  | none => (none, false)
  | some metadata => (some (applyUpdates metadata updates), true)

/-- The progress map that `updateProjectProgress` writes, computed from the
record it read: `metadata.progress || emptyObject` with the single key
`processId` set to `progressValue`. -/
def progressMapWritten (metadata : ProjectMetadata) (processId : String) (progressValue : ℚ) :
    List (String × ℚ) :=
  setEntry (metadata.progress.getD []) processId progressValue

/-- The `updateProjectProgress` function of `src/unnamed/part_010`: read the
record; if it is missing return `false`; otherwise set one key of its progress
map and write the whole map back through `updateProjectMetadata`. -/
def updateProjectProgress (store : Option ProjectMetadata) (processId : String)
    (progressValue : ℚ) : Option ProjectMetadata × Bool :=
  match getProjectMetadata store with
  | none => (store, false)
  | some metadata =>
      updateProjectMetadata store
        { progress := some (progressMapWritten metadata processId progressValue) }

/-- The `updateProjectStatus` function of `src/unnamed/part_010`: always writes
the status; the `error` key of the updates object is set to the given message
when that message is truthy (present and nonempty), and is explicitly set to
`undefined` otherwise, which clears any stored error. -/
def updateProjectStatus (store : Option ProjectMetadata) (status : ProjectStatus)
    (error : Option String) : Option ProjectMetadata × Bool :=
  let errValue : Option String :=
    match error with
    | some e => if e.isEmpty then none else some e
    | none => none
  updateProjectMetadata store { status := some status, error := some errValue }

/-- Two racing `updateProjectProgress` calls on the same record, interleaved as
read₁, read₂, write₁, write₂: each call computes its progress map from the
record it read (here the initial record `m0` for both, the second read being
stale by the time the second write lands) and then writes through
`updateProjectMetadata`. This is exactly the decomposition of
`updateProjectProgress` into its read and write halves. -/
def racyProgressRun (m0 : ProjectMetadata) (k1 : String) (p1 : ℚ) (k2 : String) (p2 : ℚ) :
    Option ProjectMetadata :=
  let store0 : Option ProjectMetadata := some m0
  let write1 := updateProjectMetadata store0 { progress := some (progressMapWritten m0 k1 p1) }
  let write2 := updateProjectMetadata write1.1 { progress := some (progressMapWritten m0 k2 p2) }
  write2.1

/-- A concrete freshly-created project record (fields as initialized by the
download route's POST handler). -/
def sampleMetadata : ProjectMetadata where
  id := "p1"
  createdAt := "2024-01-01T00:00:00.000Z"
  status := ProjectStatus.INITIALIZING
  videoUrl := "http://v"
  audioUrl := "http://a"
  startTime := 0
  endTime := 0
  audioStartTime := 0
  audioEndTime := 0
  currentProcess := some "download"
  downloadProcessId := some "d1"
  mergeProcessId := none
  splitProcessId := none
  downloadCompletedAt := none
  mergeCompletedAt := none
  splitCompletedAt := none
  videoDuration := none
  audioDuration := none
  totalDuration := none
  segments := none
  currentSegment := none
  totalSegments := none
  error := none
  progress := some []

theorem getEntry_setEntry_self (m : List (String × ℚ)) (k : String) (v : ℚ) :
    getEntry (setEntry m k v) k = some v := by
  induction m with
  | nil => simp [setEntry, getEntry]
  | cons hd tl ih =>
      obtain ⟨k0, v0⟩ := hd
      by_cases h : k0 = k <;> simp [setEntry, getEntry, h, ih]

theorem getEntry_setEntry_other (m : List (String × ℚ)) (k k' : String) (v : ℚ)
    (h : k' ≠ k) : getEntry (setEntry m k v) k' = getEntry m k' := by
  have hks : k ≠ k' := fun hh => h hh.symm
  induction m with
  | nil => simp [setEntry, getEntry, hks]
  | cons hd tl ih =>
      obtain ⟨k0, v0⟩ := hd
      by_cases h0 : k0 = k
      · subst h0
        simp [setEntry, getEntry, hks]
      · simp [setEntry, getEntry, h0, ih]

/-- C2: a sequential `updateProjectProgress(projectId, k, p)` on an existing
record succeeds, sets the progress-map entry for `k` to `p`, leaves every other
entry of the progress map unchanged, and leaves every other field of the
Project record unchanged. -/
theorem updateProjectProgress_writes_single_entry (m : ProjectMetadata) (k : String) (p : ℚ) :
    ∃ m' : ProjectMetadata,
      updateProjectProgress (some m) k p = (some m', true) ∧
      getEntry (m'.progress.getD []) k = some p ∧
      (∀ k' : String, k' ≠ k →
        getEntry (m'.progress.getD []) k' = getEntry (m.progress.getD []) k') ∧
      m'.id = m.id ∧ m'.createdAt = m.createdAt ∧ m'.status = m.status ∧
      m'.videoUrl = m.videoUrl ∧ m'.audioUrl = m.audioUrl ∧
      m'.startTime = m.startTime ∧ m'.endTime = m.endTime ∧
      m'.audioStartTime = m.audioStartTime ∧ m'.audioEndTime = m.audioEndTime ∧
      m'.currentProcess = m.currentProcess ∧
      m'.downloadProcessId = m.downloadProcessId ∧
      m'.mergeProcessId = m.mergeProcessId ∧ m'.splitProcessId = m.splitProcessId ∧
      m'.downloadCompletedAt = m.downloadCompletedAt ∧
      m'.mergeCompletedAt = m.mergeCompletedAt ∧
      m'.splitCompletedAt = m.splitCompletedAt ∧
      m'.videoDuration = m.videoDuration ∧ m'.audioDuration = m.audioDuration ∧
      m'.totalDuration = m.totalDuration ∧ m'.segments = m.segments ∧
      m'.currentSegment = m.currentSegment ∧ m'.totalSegments = m.totalSegments ∧
      m'.error = m.error := by
  refine ⟨applyUpdates m { progress := some (progressMapWritten m k p) }, rfl, ?_, ?_,
    rfl, rfl, rfl, rfl, rfl, rfl, rfl, rfl, rfl, rfl, rfl, rfl, rfl, rfl, rfl, rfl,
    rfl, rfl, rfl, rfl, rfl, rfl, rfl⟩
  · simpa [applyUpdates, progressMapWritten] using
      getEntry_setEntry_self (m.progress.getD []) k p
  · intro k' hk
    simpa [applyUpdates, progressMapWritten] using
      getEntry_setEntry_other (m.progress.getD []) k k' p hk

/-- A concrete record whose progress map already holds an entry for `k1`. -/
def sampleMetadataProg : ProjectMetadata :=
  { sampleMetadata with progress := some [("k1", 30)] }

/-- C2 witness: a concrete sequential write to key `k2` stores 70 under `k2`,
leaves the pre-existing `k1` entry at 30, and leaves the status field alone. -/
theorem updateProjectProgress_writes_single_entry_witness :
    ∃ m' : ProjectMetadata,
      updateProjectProgress (some sampleMetadataProg) "k2" 70 = (some m', true) ∧
      getEntry (m'.progress.getD []) "k2" = some 70 ∧
      getEntry (m'.progress.getD []) "k1" =
        getEntry (sampleMetadataProg.progress.getD []) "k1" ∧
      m'.status = sampleMetadataProg.status := by
  obtain ⟨m', h1, h2, h3, h4, h5, h6, -⟩ :=
    updateProjectProgress_writes_single_entry sampleMetadataProg "k2" 70
  exact ⟨m', h1, h2, h3 "k1" (by decide), h6⟩

/-- C3: when the project record does not exist, `updateProjectProgress` leaves
the store untouched and returns `false` (the Lean embedding is a total
function, modelling that the source resolves rather than throwing past its
boundary). -/
theorem updateProjectProgress_missing_project (k : String) (p : ℚ) :
    updateProjectProgress none k p = (none, false) := rfl

/-- C1: the store does NOT merge at the granularity of individual map entries.
Under the interleaving read₁ read₂ write₁ write₂ of two `updateProjectProgress`
calls with distinct keys on the same record, the second write overwrites the
whole progress map from its stale read: the first writer's key `k1` is absent
from the final record, contradicting the claimed post-state containing both
entries. -/
theorem racyProgressRun_loses_first_key :
    (racyProgressRun sampleMetadata "k1" 50 "k2" 70).bind
        (fun m => getEntry (m.progress.getD []) "k1") = none ∧
    (racyProgressRun sampleMetadata "k1" 50 "k2" 70).bind
        (fun m => getEntry (m.progress.getD []) "k2") = some 70 :=
  ⟨rfl, rfl⟩

/-- A concrete project record carrying a stored error from a failed download. -/
def sampleMetadataErr : ProjectMetadata :=
  { sampleMetadata with
      status := ProjectStatus.DOWNLOAD_ERROR
      error := some "yt-dlp process exited with code 1" }

/-- C10 counterexample: calling `updateProjectStatus` with the error argument
`""` does not set the error field — the truthiness test `if (error)` treats the
empty string as absent, so the stored error is cleared instead of set. -/
theorem updateProjectStatus_empty_error_cex :
    (updateProjectStatus (some sampleMetadataErr) ProjectStatus.DOWNLOADING (some "")).1.map
        ProjectMetadata.error = some none ∧
    some (none : Option String) ≠ some (some "") :=
  ⟨rfl, by simp⟩

/-- C10 (amended): on an existing record `updateProjectStatus` always sets the
status; with no error argument (or an empty-string one) it clears any stored
error, and with a nonempty error argument it stores that error; every other
field of the record is unchanged in all cases. -/
theorem updateProjectStatus_sets_status_and_error (m : ProjectMetadata)
    (st : ProjectStatus) (err : Option String) :
    ∃ m' : ProjectMetadata,
      updateProjectStatus (some m) st err = (some m', true) ∧
      m'.status = st ∧
      (err = none → m'.error = none) ∧
      (∀ e : String, err = some e → e ≠ "" → m'.error = some e) ∧
      (∀ e : String, err = some e → e = "" → m'.error = none) ∧
      m'.id = m.id ∧ m'.createdAt = m.createdAt ∧
      m'.videoUrl = m.videoUrl ∧ m'.audioUrl = m.audioUrl ∧
      m'.startTime = m.startTime ∧ m'.endTime = m.endTime ∧
      m'.audioStartTime = m.audioStartTime ∧ m'.audioEndTime = m.audioEndTime ∧
      m'.currentProcess = m.currentProcess ∧
      m'.downloadProcessId = m.downloadProcessId ∧
      m'.mergeProcessId = m.mergeProcessId ∧ m'.splitProcessId = m.splitProcessId ∧
      m'.downloadCompletedAt = m.downloadCompletedAt ∧
      m'.mergeCompletedAt = m.mergeCompletedAt ∧
      m'.splitCompletedAt = m.splitCompletedAt ∧
      m'.videoDuration = m.videoDuration ∧ m'.audioDuration = m.audioDuration ∧
      m'.totalDuration = m.totalDuration ∧ m'.segments = m.segments ∧
      m'.currentSegment = m.currentSegment ∧ m'.totalSegments = m.totalSegments ∧
      m'.progress = m.progress := by
  refine ⟨applyUpdates m
      { status := some st,
        error := some (match err with
          | some e => if e.isEmpty then none else some e
          | none => none) }, rfl, rfl, ?_, ?_, ?_,
    rfl, rfl, rfl, rfl, rfl, rfl, rfl, rfl, rfl, rfl, rfl, rfl, rfl, rfl, rfl,
    rfl, rfl, rfl, rfl, rfl, rfl, rfl⟩
  · rintro rfl
    rfl
  · rintro e rfl he
    have hb : e.isEmpty = false := by
      cases hb : e.isEmpty
      · rfl
      · exact absurd ((String.isEmpty_iff e).mp hb) he
    simp [applyUpdates, hb]
  · rintro e rfl he
    subst he
    rfl

/-- C10 witness: a concrete instance of the amended statement, with a nonempty
error message stored as given. -/
theorem updateProjectStatus_sets_status_and_error_witness :
    ∃ m' : ProjectMetadata,
      updateProjectStatus (some sampleMetadata) ProjectStatus.MERGING_ERROR
          (some "FFmpeg exited with code 1") = (some m', true) ∧
      m'.status = ProjectStatus.MERGING_ERROR ∧
      m'.error = some "FFmpeg exited with code 1" := by
  obtain ⟨m', h1, h2, _, h4, -⟩ :=
    updateProjectStatus_sets_status_and_error sampleMetadata
      ProjectStatus.MERGING_ERROR (some "FFmpeg exited with code 1")
  exact ⟨m', h1, h2, h4 _ rfl (by simp)⟩

/-- The effective end offset handed to the visual-track download in
`downloadMedia` (`src/unnamed/part_001`):
`audioEndTime != 0 ? audioEndTime - audioStartTime + startTime : endTime`. -/
def videoEffectiveEndTime (startTime endTime audioStartTime audioEndTime : ℚ) : ℚ :=
  if audioEndTime ≠ 0 then audioEndTime - audioStartTime + startTime else endTime

/-- C5: when an audio trim range end is given (`audioEndTime` nonzero) the
visual track's effective end offset is `audioEndTime − audioStartTime +
startTime`; when the audio end offset is zero, the explicit video `endTime` is
used instead. -/
theorem videoEffectiveEndTime_spec (startTime endTime audioStartTime audioEndTime : ℚ) :
    (audioEndTime ≠ 0 →
      videoEffectiveEndTime startTime endTime audioStartTime audioEndTime =
        audioEndTime - audioStartTime + startTime) ∧
    (audioEndTime = 0 →
      videoEffectiveEndTime startTime endTime audioStartTime audioEndTime = endTime) := by
  constructor <;> intro h <;> simp [videoEffectiveEndTime, h]

/-- C5 witness: with video start 3 and audio trim range 10–25 the visual track
ends at 18 (both tracks get the 15-second duration of the audio window); with
no audio end offset the explicit video end 99 is used. -/
theorem videoEffectiveEndTime_witness :
    videoEffectiveEndTime 3 99 10 25 = 18 ∧ videoEffectiveEndTime 3 99 10 0 = 99 := by
  constructor
  · rw [(videoEffectiveEndTime_spec 3 99 10 25).1 (by norm_num)]
    norm_num
  · exact (videoEffectiveEndTime_spec 3 99 10 0).2 rfl

/-- Immediate result of a stage-trigger route handler: the JSON response with
its HTTP status code. -/
inductive RouteResult where
  | ok (projectId : String) (processId : String)
  | err (statusCode : ℕ)
  deriving DecidableEq

/-- Filesystem state visible to the merge route's POST handler: the project
directory, `metadata.json`, and the two downloaded source artifacts. -/
structure MergeRouteFs where
  projectDirExists : Bool
  metadata : Option ProjectMetadata
  videoSourceExists : Bool
  audioSourceExists : Bool
  deriving DecidableEq

/-- The merge route's POST handler (`src/unnamed/part_000`): 404 when the
project directory or metadata file is missing, 400 when either downloaded
source file is missing (all before any write), otherwise it writes status
MERGING, the fresh process id and `currentProcess = merge`, initializes the
progress entry to 0, launches the background merge, and returns the ids. -/
def mergePOST (s : MergeRouteFs) (projectId processId : String) :
    RouteResult × MergeRouteFs :=
  if s.projectDirExists = false then (RouteResult.err 404, s)
  else
    match s.metadata with
    | none => (RouteResult.err 404, s)
    | some metadata =>
        if s.videoSourceExists = false ∨ s.audioSourceExists = false then
          (RouteResult.err 400, s)
        else
          let m1 := { metadata with
            status := ProjectStatus.MERGING
            mergeProcessId := some processId
            currentProcess := some "merge" }
          let store1 := (updateProjectProgress (some m1) processId 0).1
          (RouteResult.ok projectId processId, { s with metadata := store1 })

/-- Filesystem state visible to the split route's POST handler: the project
directory, `metadata.json`, and the merged output artifact `merge/processed.mp4`. -/
structure SplitRouteFs where
  projectDirExists : Bool
  metadata : Option ProjectMetadata
  processedVideoExists : Bool
  deriving DecidableEq

/-- The split route's POST handler
(`src/app/api/projects/[projectId]/process/split/route.ts`): 404 when the
project directory or metadata file is missing, 400 when the merged output file
is missing (all before any write), otherwise it writes status INITIALIZING, the
fresh process id and `currentProcess = split`, initializes the progress entry
to 0, launches the background split, and returns the ids. -/
def splitPOST (s : SplitRouteFs) (projectId processId : String) :
    RouteResult × SplitRouteFs :=
  if s.projectDirExists = false then (RouteResult.err 404, s)
  else
    match s.metadata with
    | none => (RouteResult.err 404, s)
    | some metadata =>
        if s.processedVideoExists = false then (RouteResult.err 400, s)
        else
          let m1 := { metadata with
            status := ProjectStatus.INITIALIZING
            splitProcessId := some processId
            currentProcess := some "split" }
          let store1 := (updateProjectProgress (some m1) processId 0).1
          (RouteResult.ok projectId processId, { s with metadata := store1 })

/-- C4: a stage-start request whose predecessor artifact is absent — merge
without both downloaded source files, split without the merged output file —
returns HTTP 400 synchronously and leaves the whole filesystem state (the
persisted project record included, hence its status field) unchanged. -/
theorem stage_start_missing_artifact_is_400_no_write
    (sm : MergeRouteFs) (ss : SplitRouteFs) (projectId processId : String)
    (mm ms : ProjectMetadata)
    (h1 : sm.projectDirExists = true) (h2 : sm.metadata = some mm)
    (h3 : sm.videoSourceExists = false ∨ sm.audioSourceExists = false)
    (h4 : ss.projectDirExists = true) (h5 : ss.metadata = some ms)
    (h6 : ss.processedVideoExists = false) :
    mergePOST sm projectId processId = (RouteResult.err 400, sm) ∧
    splitPOST ss projectId processId = (RouteResult.err 400, ss) := by
  constructor
  · simp [mergePOST, h1, h2, h3]
  · simp [splitPOST, h4, h5, h6]

/-- C4 witness: a concrete project with metadata present but the stage
artifacts missing gets a 400 from both stage-start handlers with no state
change. -/
theorem stage_start_missing_artifact_witness :
    mergePOST
        { projectDirExists := true, metadata := some sampleMetadata,
          videoSourceExists := false, audioSourceExists := true } "p1" "proc9" =
      (RouteResult.err 400,
        { projectDirExists := true, metadata := some sampleMetadata,
          videoSourceExists := false, audioSourceExists := true }) ∧
    splitPOST
        { projectDirExists := true, metadata := some sampleMetadata,
          processedVideoExists := false } "p1" "proc9" =
      (RouteResult.err 400,
        { projectDirExists := true, metadata := some sampleMetadata,
          processedVideoExists := false }) :=
  stage_start_missing_artifact_is_400_no_write _ _ "p1" "proc9"
    sampleMetadata sampleMetadata rfl rfl (Or.inl rfl) rfl rfl rfl

/-- One segment record as pushed by the split loop. The source serializes
`id`, `duration` and `filename` into `segments.json`; `startTime` is the value
the loop computes and passes to the ffmpeg `-ss` argument for that segment. -/
structure SegmentRec where
  id : ℕ
  startTime : ℚ
  duration : ℚ
  filename : String
  deriving DecidableEq

/-- Segment file name `segment_i.mp4` as in the split loop. -/
def segmentFilename (i : ℕ) : String := "segment_" ++ toString i ++ ".mp4"

/-- The pure content of the split loop in `splitVideoIntoSegments`
(`src/app/api/projects/[projectId]/process/split/route.ts`): segment count is
`Math.ceil(videoDuration / segmentDuration)`; for the zero-based loop index `i`
the start offset is `i * segmentDuration`, the clipped duration is
`min(segmentDuration, videoDuration - startTime)`, and the record gets the
one-based id `i + 1`. -/
def splitSegments (videoDuration segmentDuration : ℚ) : List SegmentRec :=
  (List.range (⌈videoDuration / segmentDuration⌉).toNat).map (fun i =>
    { id := i + 1
      startTime := (i : ℚ) * segmentDuration
      duration := min segmentDuration (videoDuration - (i : ℚ) * segmentDuration)
      filename := segmentFilename (i + 1) })

theorem sum_min_durations : ∀ (n : ℕ) (D : ℚ), 0 < D →
    60 * ((n : ℚ) - 1) < D → D ≤ 60 * (n : ℚ) →
    ((List.range n).map (fun i : ℕ => min 60 (D - (i : ℚ) * 60))).sum = D := by
  intro n
  induction n with
  | zero =>
      intro D hD h1 h2
      push_cast at h2
      linarith
  | succ m ih =>
      intro D hD h1 h2
      rw [List.range_succ_eq_map, List.map_cons, List.sum_cons, List.map_map]
      rcases Nat.eq_zero_or_pos m with hm | hm
      · subst hm
        push_cast at h2
        simp only [List.range_zero, List.map_nil, List.sum_nil, Function.comp,
          Nat.cast_zero, zero_mul, sub_zero, add_zero]
        rw [min_eq_right (by linarith)]
      · have hm1 : (1:ℚ) ≤ (m:ℚ) := by exact_mod_cast hm
        have h1' : 60 * (m:ℚ) < D := by push_cast at h1; linarith
        have h60 : (60:ℚ) ≤ D := by nlinarith
        have hhead : min (60:ℚ) (D - ((0:ℕ):ℚ) * 60) = 60 := by
          simp only [Nat.cast_zero, zero_mul, sub_zero]
          exact min_eq_left h60
        have hfun : ((fun i : ℕ => min 60 (D - (i : ℚ) * 60)) ∘ Nat.succ) =
            (fun i : ℕ => min 60 ((D - 60) - (i : ℚ) * 60)) := by
          funext i
          have : D - ((Nat.succ i : ℕ) : ℚ) * 60 = (D - 60) - (i : ℚ) * 60 := by
            push_cast
            ring
          simp only [Function.comp_apply, this]
        have htail := ih (D - 60) (by linarith)
          (by push_cast at h1 ⊢; linarith) (by push_cast at h2 ⊢; linarith)
        rw [hfun, htail, hhead]
        ring

/-- C6: for total duration D > 0 and the fixed 60-second target length, the
split loop produces exactly `⌈D / 60⌉` records with dense one-based ids, where
the record at zero-based index j starts at `j·60` and has duration
`min(60, D − j·60)`; every segment but the last has duration exactly 60, the
durations sum to D, and in particular D = 125 yields durations `[60, 60, 5]`. -/
theorem splitSegments_spec (D : ℚ) (hD : 0 < D) :
    (splitSegments D 60).length = (⌈D / 60⌉).toNat ∧
    (∀ j : ℕ, j < (⌈D / 60⌉).toNat →
      (splitSegments D 60)[j]? = some
        { id := j + 1, startTime := (j : ℚ) * 60,
          duration := min 60 (D - (j : ℚ) * 60),
          filename := segmentFilename (j + 1) }) ∧
    (∀ j : ℕ, j + 1 < (⌈D / 60⌉).toNat →
      ((splitSegments D 60)[j]?).map SegmentRec.duration = some 60) ∧
    ((splitSegments D 60).map SegmentRec.duration).sum = D ∧
    (splitSegments 125 60).map SegmentRec.duration = [60, 60, 5] := by
  have hceil_nonneg : 0 ≤ ⌈D / 60⌉ := by
    apply Int.ceil_nonneg
    positivity
  have hcast : ((((⌈D / 60⌉).toNat : ℤ)) : ℚ) = ((⌈D / 60⌉ : ℤ) : ℚ) := by
    exact_mod_cast congrArg Int.cast (Int.toNat_of_nonneg hceil_nonneg)
  have hcastN : (((⌈D / 60⌉).toNat : ℕ) : ℚ) = ((⌈D / 60⌉ : ℤ) : ℚ) := by
    exact_mod_cast hcast
  have hupper : D ≤ 60 * (((⌈D / 60⌉).toNat : ℕ) : ℚ) := by
    rw [hcastN]
    have := Int.le_ceil (D / 60)
    have h60 : (0:ℚ) < 60 := by norm_num
    rw [div_le_iff₀ h60] at this
    linarith
  have hlower : 60 * ((((⌈D / 60⌉).toNat : ℕ) : ℚ) - 1) < D := by
    rw [hcastN]
    have := Int.ceil_lt_add_one (D / 60)
    have h60 : (0:ℚ) < 60 := by norm_num
    have h2 : ((⌈D / 60⌉ : ℤ) : ℚ) - 1 < D / 60 := by push_cast at this ⊢; linarith
    rw [← sub_lt_iff_lt_add] at this
    calc 60 * (((⌈D / 60⌉ : ℤ) : ℚ) - 1) < 60 * (D / 60) := by
          apply mul_lt_mul_of_pos_left h2 h60
      _ = D := by field_simp
  refine ⟨by simp [splitSegments], ?_, ?_, ?_, ?_⟩
  · intro j hj
    simp [splitSegments, List.getElem?_map, List.getElem?_range hj]
  · intro j hj
    have hjlt : j < (⌈D / 60⌉).toNat := by omega
    have hdur : min (60:ℚ) (D - (j : ℚ) * 60) = 60 := by
      apply min_eq_left
      have hj1 : ((j:ℚ) + 1) ≤ (((⌈D / 60⌉).toNat : ℕ) : ℚ) - 1 := by
        have : (j + 2 : ℕ) ≤ (⌈D / 60⌉).toNat := by omega
        have hcast2 : ((j + 2 : ℕ) : ℚ) ≤ (((⌈D / 60⌉).toNat : ℕ) : ℚ) := by
          exact_mod_cast this
        push_cast at hcast2 ⊢
        linarith
      nlinarith [hlower]
    simp [splitSegments, List.getElem?_map, List.getElem?_range hjlt, hdur]
  · have hsum := sum_min_durations (⌈D / 60⌉).toNat D hD hlower hupper
    calc ((splitSegments D 60).map SegmentRec.duration).sum
        = ((List.range (⌈D / 60⌉).toNat).map
            (fun i : ℕ => min 60 (D - (i : ℚ) * 60))).sum := by
          rw [splitSegments, List.map_map]
          rfl
      _ = D := hsum
  · have hc : ⌈(125:ℚ)/60⌉ = 3 := by
      rw [Int.ceil_eq_iff]
      constructor <;> norm_num
    simp only [splitSegments, hc]
    norm_num [show Int.toNat 3 = 3 from rfl, show List.range 3 = [0, 1, 2] from rfl,
      Function.comp, min_def]

/-- C6 witness: the theorem applied at D = 125 gives the 125-second scenario
durations and their sum. -/
theorem splitSegments_witness :
    (splitSegments 125 60).map SegmentRec.duration = [60, 60, 5] ∧
    ((splitSegments 125 60).map SegmentRec.duration).sum = 125 :=
  ⟨(splitSegments_spec 125 (by norm_num)).2.2.2.2,
   (splitSegments_spec 125 (by norm_num)).2.2.2.1⟩

/-- One timestamped caption word as fed to `createSubtitleFile`
(`src/unnamed/part_001`). The field `stop` models the source's `end` (a
reserved word in Lean); `text` models the JavaScript string as its character
sequence. -/
structure Caption where
  start : ℚ
  stop : ℚ
  text : List Char
  deriving DecidableEq

/-- The mutable `currentLine` accumulator of the packing loop
(`start`, `end`, `text`, `wordCount`). -/
structure LineAcc where
  start : ℚ
  stop : ℚ
  text : List Char
  wordCount : ℕ
  deriving DecidableEq

/-- One produced subtitle line. The source serializes `start`, `end` and the
trimmed `text`; `wordCount` additionally records the accumulator's word count
at push time (dropped by the source's serialization), so the word-count bound
can be stated. -/
structure SubtitleLine where
  start : ℚ
  stop : ℚ
  text : List Char
  wordCount : ℕ
  deriving DecidableEq

/-- JavaScript `String.prototype.trim()` on the character-sequence model:
whitespace stripped from both ends. -/
def trimChars (cs : List Char) : List Char :=
  ((cs.dropWhile Char.isWhitespace).reverse.dropWhile Char.isWhitespace).reverse

/-- The `lines.push(...)` argument built from the current accumulator:
start, end, and `text.trim()` (plus the ghost word count). -/
def pushLine (acc : LineAcc) : SubtitleLine :=
  { start := acc.start, stop := acc.stop, text := trimChars acc.text,
    wordCount := acc.wordCount }

/-- First statement of the loop body: if this is the first word in a line, set
the start time (`if (currentLine.wordCount === 0) currentLine.start = caption.start`). -/
def startAdjust (acc : LineAcc) (caption : Caption) : LineAcc :=
  if acc.wordCount = 0 then { acc with start := caption.start } else acc

/-- The line pushed when the limits are hit: the accumulator with its end time
set to the overflowing word's start time (`currentLine.end = caption.start`),
then pushed through `pushLine`. -/
def closedLine (acc : LineAcc) (caption : Caption) : SubtitleLine :=
  pushLine { acc with stop := caption.start }

/-- The fresh accumulator begun with the overflowing word (text
`caption.text + ' '`, word count 1), with the loop body's trailing
`currentLine.end = caption.end` folded in. -/
def newLineAcc (caption : Caption) : LineAcc :=
  { start := caption.start, stop := caption.stop,
    text := caption.text ++ [' '], wordCount := 1 }

/-- The accumulator after an iteration that neither pushed nor appended (the
limit was hit on an empty line, so the overflowing word is dropped): only the
trailing `currentLine.end = caption.end` assignment applies. -/
def skipAcc (acc : LineAcc) (caption : Caption) : LineAcc :=
  { acc with stop := caption.stop }

/-- The accumulator after appending the word to the current line
(`text += caption.text + ' '`, `wordCount++`), with the trailing
`currentLine.end = caption.end` folded in. -/
def addAcc (acc : LineAcc) (caption : Caption) : LineAcc :=
  { acc with
      text := acc.text ++ caption.text ++ [' ']
      wordCount := acc.wordCount + 1
      stop := caption.stop }

/-- The word-packing loop of `createSubtitleFile`, written as structural
recursion over the caption list (one recursive call per `forEach` iteration),
with the final lone-line push as the base case. When the limits would be
exceeded (`wordCount >= 5 || text.length + caption.text.length >= 20`) and the
line is nonempty, the line is closed with end time `caption.start` and a new
line begins with the overflowing word; otherwise the word is appended. -/
def packLoop : LineAcc → List Caption → List SubtitleLine
  | acc, [] => if 0 < acc.wordCount then [pushLine acc] else []
  | acc0, caption :: rest =>
      let acc := startAdjust acc0 caption
      if 5 ≤ acc.wordCount ∨ 20 ≤ acc.text.length + caption.text.length then
        if 0 < acc.wordCount then
          closedLine acc caption :: packLoop (newLineAcc caption) rest
        else
          packLoop (skipAcc acc caption) rest
      else
        packLoop (addAcc acc caption) rest

/-- The line-grouping performed by `createSubtitleFile`: the packing loop run
from the initial accumulator `start: 0, end: 0, text: empty, wordCount: 0`. -/
def createSubtitleLines (captions : List Caption) : List SubtitleLine :=
  packLoop { start := 0, stop := 0, text := [], wordCount := 0 } captions

@[simp] theorem startAdjust_wordCount (acc : LineAcc) (c : Caption) :
    (startAdjust acc c).wordCount = acc.wordCount := by
  unfold startAdjust
  split <;> rfl

@[simp] theorem startAdjust_text (acc : LineAcc) (c : Caption) :
    (startAdjust acc c).text = acc.text := by
  unfold startAdjust
  split <;> rfl

@[simp] theorem startAdjust_stop (acc : LineAcc) (c : Caption) :
    (startAdjust acc c).stop = acc.stop := by
  unfold startAdjust
  split <;> rfl

theorem startAdjust_of_ne (acc : LineAcc) (c : Caption) (h : acc.wordCount ≠ 0) :
    startAdjust acc c = acc := by
  unfold startAdjust
  simp [h]

theorem startAdjust_start_of_eq (acc : LineAcc) (c : Caption) (h : acc.wordCount = 0) :
    (startAdjust acc c).start = c.start := by
  unfold startAdjust
  simp [h]

@[simp] theorem newLineAcc_wordCount (c : Caption) : (newLineAcc c).wordCount = 1 := rfl

@[simp] theorem newLineAcc_start (c : Caption) : (newLineAcc c).start = c.start := rfl

@[simp] theorem newLineAcc_stop (c : Caption) : (newLineAcc c).stop = c.stop := rfl

@[simp] theorem skipAcc_wordCount (acc : LineAcc) (c : Caption) :
    (skipAcc acc c).wordCount = acc.wordCount := rfl

@[simp] theorem addAcc_wordCount (acc : LineAcc) (c : Caption) :
    (addAcc acc c).wordCount = acc.wordCount + 1 := rfl

@[simp] theorem addAcc_start (acc : LineAcc) (c : Caption) :
    (addAcc acc c).start = acc.start := rfl

@[simp] theorem addAcc_stop (acc : LineAcc) (c : Caption) :
    (addAcc acc c).stop = c.stop := rfl

theorem length_dropWhile_le (p : Char → Bool) (l : List Char) :
    (l.dropWhile p).length ≤ l.length := by
  induction l with
  | nil => simp
  | cons a l ih =>
      by_cases h : p a
      · rw [List.dropWhile_cons_of_pos h]
        exact Nat.le_trans ih (Nat.le_succ _)
      · rw [List.dropWhile_cons_of_neg h]

theorem trimChars_length_le (cs : List Char) : (trimChars cs).length ≤ cs.length := by
  unfold trimChars
  rw [List.length_reverse]
  refine Nat.le_trans (length_dropWhile_le _ _) ?_
  rw [List.length_reverse]
  exact length_dropWhile_le _ _

theorem packLoop_ne_nil (cs : List Caption) : ∀ (acc : LineAcc),
    acc.wordCount ≠ 0 → packLoop acc cs ≠ [] := by
  induction cs with
  | nil =>
      intro acc h
      simp [packLoop, Nat.pos_of_ne_zero h]
  | cons c rest ih =>
      intro acc h
      simp only [packLoop]
      split_ifs with h1 h2
      · simp
      · rw [startAdjust_wordCount] at h2
        exact absurd (Nat.pos_of_ne_zero h) h2
      · exact ih (addAcc (startAdjust acc c) c) (by simp)

theorem packLoop_head_start (cs : List Caption) : ∀ (acc : LineAcc),
    acc.wordCount ≠ 0 →
    ∃ l rest', packLoop acc cs = l :: rest' ∧ l.start = acc.start := by
  induction cs with
  | nil =>
      intro acc h
      exact ⟨pushLine acc, [], by simp [packLoop, Nat.pos_of_ne_zero h], rfl⟩
  | cons c rest ih =>
      intro acc h
      simp only [packLoop]
      split_ifs with h1 h2
      · refine ⟨closedLine (startAdjust acc c) c, _, rfl, ?_⟩
        rw [closedLine, pushLine]
        exact congrArg LineAcc.start (startAdjust_of_ne acc c h)
      · rw [startAdjust_wordCount] at h2
        exact absurd (Nat.pos_of_ne_zero h) h2
      · obtain ⟨l, r, hl, hs⟩ := ih (addAcc (startAdjust acc c) c) (by simp)
        refine ⟨l, r, hl, ?_⟩
        rw [hs, addAcc_start]
        exact congrArg LineAcc.start (startAdjust_of_ne acc c h)

theorem packLoop_getLast_stop (cs : List Caption) : ∀ (acc : LineAcc),
    packLoop acc cs ≠ [] → cs ≠ [] →
    ((packLoop acc cs).getLast?).map SubtitleLine.stop =
      (cs.getLast?).map Caption.stop := by
  induction cs with
  | nil => exact fun acc _ hc => absurd rfl hc
  | cons c rest ih =>
      intro acc hne _
      by_cases hrest : rest = []
      · subst hrest
        revert hne
        simp only [packLoop]
        split_ifs with h1 h2 h3 h4 h4 <;> intro hne <;>
          simp_all [pushLine, skipAcc, addAcc]
      · obtain ⟨r0, rs, hr⟩ := List.exists_cons_of_ne_nil hrest
        revert hne
        simp only [packLoop]
        split_ifs with h1 h2 <;> intro hne
        · have hne2 : packLoop (newLineAcc c) rest ≠ [] :=
            packLoop_ne_nil rest (newLineAcc c) (by simp)
          obtain ⟨l0, r1, hl0, _⟩ :=
            packLoop_head_start rest (newLineAcc c) (by simp)
          have htail := ih (newLineAcc c) hne2 hrest
          rw [hl0] at htail ⊢
          rw [List.getLast?_cons_cons, htail, hr, List.getLast?_cons_cons]
        · have htail := ih (skipAcc (startAdjust acc c) c) hne hrest
          rw [htail, hr, List.getLast?_cons_cons]
        · have htail := ih (addAcc (startAdjust acc c) c) hne hrest
          rw [htail, hr, List.getLast?_cons_cons]

@[simp] theorem pushLine_wordCount (acc : LineAcc) :
    (pushLine acc).wordCount = acc.wordCount := rfl

@[simp] theorem pushLine_start (acc : LineAcc) : (pushLine acc).start = acc.start := rfl

@[simp] theorem pushLine_stop (acc : LineAcc) : (pushLine acc).stop = acc.stop := rfl

@[simp] theorem pushLine_text (acc : LineAcc) : (pushLine acc).text = trimChars acc.text := rfl

@[simp] theorem closedLine_wordCount (acc : LineAcc) (c : Caption) :
    (closedLine acc c).wordCount = acc.wordCount := rfl

@[simp] theorem closedLine_start (acc : LineAcc) (c : Caption) :
    (closedLine acc c).start = acc.start := rfl

@[simp] theorem closedLine_stop (acc : LineAcc) (c : Caption) :
    (closedLine acc c).stop = c.start := rfl

@[simp] theorem closedLine_text (acc : LineAcc) (c : Caption) :
    (closedLine acc c).text = trimChars acc.text := rfl

@[simp] theorem skipAcc_text (acc : LineAcc) (c : Caption) :
    (skipAcc acc c).text = acc.text := rfl

@[simp] theorem addAcc_text (acc : LineAcc) (c : Caption) :
    (addAcc acc c).text = acc.text ++ c.text ++ [' '] := rfl

theorem packLoop_lines (cs : List Caption) : ∀ (acc : LineAcc),
    (∀ c ∈ cs, c.start ≤ c.stop) →
    cs.Pairwise (fun a b => a.start ≤ b.start) →
    acc.wordCount ≤ 5 →
    (2 ≤ acc.wordCount → acc.text.length ≤ 20) →
    (acc.wordCount ≠ 0 → acc.start ≤ acc.stop ∧ ∀ c ∈ cs, acc.start ≤ c.start) →
    (∀ l ∈ packLoop acc cs,
        (1 ≤ l.wordCount ∧ l.wordCount ≤ 5) ∧
        (2 ≤ l.wordCount → l.text.length ≤ 20) ∧ l.start ≤ l.stop) ∧
    List.Chain' (fun a b => a.stop = b.start) (packLoop acc cs) := by
  induction cs with
  | nil =>
      intro acc h1 h2 h3 h4 h5
      by_cases h : acc.wordCount = 0
      · simp [packLoop, h]
      · have hpos := Nat.pos_of_ne_zero h
        simp only [packLoop, if_pos hpos]
        refine ⟨?_, by simp⟩
        intro l hl
        rw [List.mem_singleton] at hl
        subst hl
        refine ⟨⟨by simpa using hpos, by simpa using h3⟩, ?_, by simpa using (h5 h).1⟩
        intro h2w
        rw [pushLine_text]
        exact le_trans (trimChars_length_le acc.text) (h4 (by simpa using h2w))
  | cons c rest ih =>
      intro acc h1 h2 h3 h4 h5
      have hc_ss : c.start ≤ c.stop := h1 c (List.mem_cons_self c rest)
      have h1r : ∀ x ∈ rest, x.start ≤ x.stop := fun x hx => h1 x (List.mem_cons_of_mem c hx)
      obtain ⟨hcr, h2r⟩ := List.pairwise_cons.mp h2
      simp only [packLoop]
      split_ifs with hcond hpos
      · have hwc0 : acc.wordCount ≠ 0 := by
          rw [startAdjust_wordCount] at hpos
          omega
        have hadj : startAdjust acc c = acc := startAdjust_of_ne acc c hwc0
        rw [hadj]
        obtain ⟨hse, hfut⟩ := h5 hwc0
        obtain ⟨IH1, IH2⟩ := ih (newLineAcc c) h1r h2r (by simp)
          (by intro hh; rw [newLineAcc_wordCount] at hh; omega)
          (fun _ => ⟨by simpa using hc_ss, by simpa using hcr⟩)
        constructor
        · intro l hl
          rcases List.mem_cons.mp hl with hl | hl
          · subst hl
            refine ⟨⟨by simpa using Nat.pos_of_ne_zero hwc0, by simpa using h3⟩, ?_, ?_⟩
            · intro h2w
              rw [closedLine_text]
              exact le_trans (trimChars_length_le acc.text) (h4 (by simpa using h2w))
            · rw [closedLine_start, closedLine_stop]
              exact hfut c (List.mem_cons_self c rest)
          · exact IH1 l hl
        · obtain ⟨l0, r1, hl0, hs0⟩ := packLoop_head_start rest (newLineAcc c) (by simp)
          rw [hl0] at IH2 ⊢
          rw [List.chain'_cons]
          refine ⟨?_, IH2⟩
          rw [closedLine_stop, hs0, newLineAcc_start]
      · have hwc0 : acc.wordCount = 0 := by
          rw [startAdjust_wordCount] at hpos
          omega
        exact ih (skipAcc (startAdjust acc c) c) h1r h2r
          (by simp [hwc0])
          (by intro hh; rw [skipAcc_wordCount, startAdjust_wordCount, hwc0] at hh; omega)
          (by intro hh; rw [skipAcc_wordCount, startAdjust_wordCount] at hh; exact absurd hwc0 hh)
      · have hc5 : (startAdjust acc c).wordCount < 5 ∧
            (startAdjust acc c).text.length + c.text.length < 20 := by
          push_neg at hcond
          exact hcond
        refine ih (addAcc (startAdjust acc c) c) h1r h2r ?_ ?_ ?_
        · rw [addAcc_wordCount]
          omega
        · intro hh
          rw [addAcc_text]
          have := hc5.2
          rw [startAdjust_text] at this
          simp only [List.length_append, startAdjust_text, List.length_singleton]
          omega
        · intro hh
          by_cases h0 : acc.wordCount = 0
          · constructor
            · rw [addAcc_start, startAdjust_start_of_eq acc c h0, addAcc_stop]
              exact hc_ss
            · intro x hx
              rw [addAcc_start, startAdjust_start_of_eq acc c h0]
              exact hcr x hx
          · have hadj : (startAdjust acc c).start = acc.start :=
              congrArg LineAcc.start (startAdjust_of_ne acc c h0)
            obtain ⟨hse, hfut⟩ := h5 h0
            constructor
            · rw [addAcc_start, hadj, addAcc_stop]
              exact le_trans (hfut c (List.mem_cons_self c rest)) hc_ss
            · intro x hx
              rw [addAcc_start, hadj]
              exact hfut x (List.mem_cons_of_mem c hx)

theorem chain_stop_start_mono (lines : List SubtitleLine)
    (h1 : List.Chain' (fun a b => a.stop = b.start) lines)
    (h2 : ∀ l ∈ lines, l.start ≤ l.stop) :
    List.Chain' (fun a b => a.start ≤ b.start) lines := by
  induction lines with
  | nil => simp
  | cons a rest ih =>
      cases rest with
      | nil => simp
      | cons b rest2 =>
          rw [List.chain'_cons] at h1 ⊢
          refine ⟨?_, ih h1.2 (fun l hl => h2 l (List.mem_cons_of_mem a hl))⟩
          rw [← h1.1]
          exact h2 a (List.mem_cons_self a (b :: rest2))

/-- C7: for a chronological caption-word sequence (each word's start not after
its end, and word start times non-decreasing), the packer produces lines with
between 1 and 5 words each; a line of two or more words has trimmed text of at
most 20 characters (the limits are enforced at the moment the next word would
exceed them — a single overlong word still becomes its own line); each closed
line's end time equals the start time of the word beginning the next line
(adjacent intervals touch exactly, hence do not overlap); every line's interval
is well-formed (start ≤ end) with non-decreasing start times; and the final
line's end time is its last word's end time. -/
theorem createSubtitleLines_spec (captions : List Caption)
    (h1 : ∀ c ∈ captions, c.start ≤ c.stop)
    (h2 : captions.Pairwise (fun a b => a.start ≤ b.start)) :
    (∀ l ∈ createSubtitleLines captions,
        (1 ≤ l.wordCount ∧ l.wordCount ≤ 5) ∧
        (2 ≤ l.wordCount → l.text.length ≤ 20)) ∧
    List.Chain' (fun a b => a.stop = b.start) (createSubtitleLines captions) ∧
    (∀ l ∈ createSubtitleLines captions, l.start ≤ l.stop) ∧
    List.Chain' (fun a b => a.start ≤ b.start) (createSubtitleLines captions) ∧
    (createSubtitleLines captions ≠ [] →
      ((createSubtitleLines captions).getLast?).map SubtitleLine.stop =
        (captions.getLast?).map Caption.stop) := by
  obtain ⟨hAll, hChain⟩ := packLoop_lines captions { start := 0, stop := 0, text := [], wordCount := 0 }
    h1 h2 (by norm_num) (by intro hh; simp) (by intro hh; exact absurd rfl hh)
  refine ⟨fun l hl => ⟨(hAll l hl).1, (hAll l hl).2.1⟩, hChain,
    fun l hl => (hAll l hl).2.2, ?_, ?_⟩
  · exact chain_stop_start_mono _ hChain (fun l hl => (hAll l hl).2.2)
  · intro hne
    have hce : captions ≠ [] := by
      rintro rfl
      apply hne
      rfl
    exact packLoop_getLast_stop captions _ hne hce

/-- A concrete chronological caption sequence (seven whole-second words). -/
def sampleCaptions : List Caption :=
  [⟨0, 1, "this".toList⟩, ⟨1, 2, "is".toList⟩, ⟨2, 3, "a".toList⟩,
   ⟨3, 4, "test".toList⟩, ⟨4, 5, "of".toList⟩, ⟨5, 6, "packing".toList⟩,
   ⟨6, 7, "lines".toList⟩]

/-- C7 witness: the packer theorem applied to the concrete caption sequence,
with both chronology hypotheses discharged by computation. -/
theorem createSubtitleLines_witness :
    (∀ c ∈ sampleCaptions, c.start ≤ c.stop) ∧
    sampleCaptions.Pairwise (fun a b => a.start ≤ b.start) ∧
    List.Chain' (fun a b => a.stop = b.start) (createSubtitleLines sampleCaptions) ∧
    (∀ l ∈ createSubtitleLines sampleCaptions, 1 ≤ l.wordCount ∧ l.wordCount ≤ 5) := by
  have hs : ∀ c ∈ sampleCaptions, c.start ≤ c.stop := by decide
  have hp : sampleCaptions.Pairwise (fun a b => a.start ≤ b.start) := by decide
  obtain ⟨hAll, hChain, -, -, -⟩ := createSubtitleLines_spec sampleCaptions hs hp
  exact ⟨hs, hp, hChain, fun l hl => (hAll l hl).1⟩

/-- One entry of `segments.json` with the fields used by the captioning
sub-pipeline (`src/unnamed/part_001`). -/
structure Segment where
  id : ℕ
  filename : String
  duration : ℚ
  captioningStatus : Option String
  captioningStartedAt : Option String
  captioningProcessId : Option String
  captioningProgress : Option ℚ
  captioningCompletedAt : Option String
  captioningFailedAt : Option String
  captioningError : Option String
  subtitle : Option String
  captionedFilename : Option String
  deriving DecidableEq

/-- Per-project persisted state touched by the caption sub-pipeline:
`metadata.json` and `segments.json` (either may be absent). -/
structure ProjectState where
  metadata : Option ProjectMetadata
  segments : Option (List Segment)
  deriving DecidableEq

/-- JavaScript array element assignment `xs[i] = f(xs[i])`: out-of-range
indices leave the list unchanged. -/
def listModify {α : Type} (f : α → α) : ℕ → List α → List α
  | _, [] => []
  | 0, a :: as => f a :: as
  | n + 1, a :: as => a :: listModify f n as

/-- The record update performed by `captionSegment`'s catch block on the
matching segment: spread the old record and overwrite `captioningStatus`,
`captioningFailedAt` and `captioningError`. -/
def failSegment (errMsg failedAt : String) (s : Segment) : Segment :=
  { s with
      captioningStatus := some "failed"
      captioningFailedAt := some failedAt
      captioningError := some errMsg }

/-- The catch block of `captionSegment` (`src/unnamed/part_001`): re-read
`segments.json` (if that read throws, the nested catch swallows the error and
nothing is written), find the segment by id (`findIndex`), and if found
overwrite just that element and write the list back. `metadata.json` is never
touched. -/
def captionSegmentCatch (st : ProjectState) (segmentId : ℕ)
    (errMsg failedAt : String) : ProjectState :=
  match st.segments with
  | none => st
  | some segs =>
      match segs.findIdx? (fun s => s.id == segmentId) with
      | none => st
      | some i =>
          { st with segments := some (listModify (failSegment errMsg failedAt) i segs) }

theorem listModify_length {α : Type} (f : α → α) : ∀ (n : ℕ) (l : List α),
    (listModify f n l).length = l.length := by
  intro n l
  induction l generalizing n with
  | nil => cases n <;> rfl
  | cons a as ih =>
      cases n with
      | zero => rfl
      | succ m => simpa [listModify] using ih m

theorem listModify_getElem_ne {α : Type} (f : α → α) : ∀ (n j : ℕ) (l : List α),
    j ≠ n → (listModify f n l)[j]? = l[j]? := by
  intro n j l
  induction l generalizing n j with
  | nil => intro _; cases n <;> rfl
  | cons a as ih =>
      intro hj
      cases n with
      | zero =>
          cases j with
          | zero => exact absurd rfl hj
          | succ j0 => simp [listModify]
      | succ m =>
          cases j with
          | zero => simp [listModify]
          | succ j0 =>
              simp only [listModify, List.getElem?_cons_succ]
              exact ih m j0 (fun hh => hj (by rw [hh]))

theorem listModify_getElem_eq {α : Type} (f : α → α) : ∀ (n : ℕ) (l : List α) (a : α),
    l[n]? = some a → (listModify f n l)[n]? = some (f a) := by
  intro n l
  induction l generalizing n with
  | nil => intro a h; simp at h
  | cons x as ih =>
      intro a h
      cases n with
      | zero =>
          simp only [List.getElem?_cons_zero, Option.some_inj] at h
          subst h
          simp [listModify]
      | succ m =>
          simp only [List.getElem?_cons_succ] at h
          simpa [listModify] using ih m a h

/-- C8: when one segment's caption sub-pipeline fails, the catch handler
changes only that segment's record — setting its `captioningStatus` to
`failed` and populating `captioningError` and `captioningFailedAt`, leaving
its other fields intact — while every other segment's record and the project
metadata (in particular its top-level `status`) are left unchanged. -/
theorem captionSegment_failure_isolation (st : ProjectState) (segs : List Segment)
    (segmentId : ℕ) (errMsg failedAt : String) (i : ℕ)
    (hsegs : st.segments = some segs)
    (hidx : segs.findIdx? (fun s => s.id == segmentId) = some i) :
    ∃ segs' : List Segment,
      (captionSegmentCatch st segmentId errMsg failedAt).segments = some segs' ∧
      (captionSegmentCatch st segmentId errMsg failedAt).metadata = st.metadata ∧
      segs'.length = segs.length ∧
      (∀ j : ℕ, j ≠ i → segs'[j]? = segs[j]?) ∧
      (∀ s : Segment, segs[i]? = some s →
        ∃ s' : Segment, segs'[i]? = some s' ∧
          s'.captioningStatus = some "failed" ∧
          s'.captioningError = some errMsg ∧
          s'.captioningFailedAt = some failedAt ∧
          s'.id = s.id ∧ s'.filename = s.filename ∧ s'.duration = s.duration ∧
          s'.captioningStartedAt = s.captioningStartedAt ∧
          s'.captioningProcessId = s.captioningProcessId ∧
          s'.captioningProgress = s.captioningProgress ∧
          s'.captioningCompletedAt = s.captioningCompletedAt ∧
          s'.subtitle = s.subtitle ∧
          s'.captionedFilename = s.captionedFilename) := by
  refine ⟨listModify (failSegment errMsg failedAt) i segs, ?_, ?_, ?_, ?_, ?_⟩
  · simp [captionSegmentCatch, hsegs, hidx]
  · simp [captionSegmentCatch, hsegs, hidx]
  · exact listModify_length _ i segs
  · exact fun j hj => listModify_getElem_ne _ i j segs hj
  · intro s hs
    refine ⟨failSegment errMsg failedAt s, listModify_getElem_eq _ i segs s hs,
      rfl, rfl, rfl, rfl, rfl, rfl, rfl, rfl, rfl, rfl, rfl, rfl⟩

/-- A concrete in-progress segment record. -/
def sampleSegment1 : Segment where
  id := 1
  filename := "segment_1.mp4"
  duration := 60
  captioningStatus := some "in-progress"
  captioningStartedAt := some "2024-01-01T00:01:00.000Z"
  captioningProcessId := some "c1"
  captioningProgress := some 5
  captioningCompletedAt := none
  captioningFailedAt := none
  captioningError := none
  subtitle := none
  captionedFilename := none

/-- A concrete pending segment record. -/
def sampleSegment2 : Segment where
  id := 2
  filename := "segment_2.mp4"
  duration := 5
  captioningStatus := some "pending"
  captioningStartedAt := none
  captioningProcessId := none
  captioningProgress := some 0
  captioningCompletedAt := none
  captioningFailedAt := none
  captioningError := none
  subtitle := none
  captionedFilename := none

/-- C8 witness: failing segment 2 of a concrete two-segment project marks only
segment 2 failed and leaves segment 1 and the metadata untouched. -/
theorem captionSegment_failure_isolation_witness :
    ∃ segs' : List Segment,
      (captionSegmentCatch
          { metadata := some sampleMetadata,
            segments := some [sampleSegment1, sampleSegment2] } 2
          "Whisper exited with code 1" "2024-01-01T00:02:00.000Z").segments = some segs' ∧
      (captionSegmentCatch
          { metadata := some sampleMetadata,
            segments := some [sampleSegment1, sampleSegment2] } 2
          "Whisper exited with code 1" "2024-01-01T00:02:00.000Z").metadata =
        some sampleMetadata ∧
      segs'[0]? = some sampleSegment1 ∧
      ∃ s' : Segment, segs'[1]? = some s' ∧
        s'.captioningStatus = some "failed" ∧
        s'.captioningError = some "Whisper exited with code 1" := by
  obtain ⟨segs', ha, hb, -, hne, hat⟩ := captionSegment_failure_isolation
    { metadata := some sampleMetadata,
      segments := some [sampleSegment1, sampleSegment2] }
    [sampleSegment1, sampleSegment2] 2 "Whisper exited with code 1"
    "2024-01-01T00:02:00.000Z" 1 rfl (by rfl)
  obtain ⟨s', hs1, hs2, hs3, -⟩ := hat sampleSegment2 rfl
  exact ⟨segs', ha, hb, by rw [hne 0 (by omega)]; rfl, s', hs1, hs2, hs3⟩

/-- The `updateSegmentProgress` closure of `captionSegment`
(`src/unnamed/part_001`): re-read the segment list, and if the segment at the
previously found index is still `in-progress`, store `Math.min(progress, 100)`
as its `captioningProgress` (note: clamped above at 100 but not below at 0). -/
def updateSegmentProgress (segs : List Segment) (segmentIndex : ℕ) (progress : ℚ) :
    List Segment :=
  listModify
    (fun s =>
      if s.captioningStatus = some "in-progress" then
        { s with captioningProgress := some (min progress 100) }
      else s)
    segmentIndex segs

/-- Numeric value of one decimal digit character. -/
def digitVal (c : Char) : ℕ := c.toNat - '0'.toNat

/-- Value of a run of decimal digit characters (most significant first). -/
def digitsToNat (ds : List Char) : ℕ := ds.foldl (fun n c => 10 * n + digitVal c) 0

/-- The capture group and `parseFloat` of the yt-dlp progress pattern: parse
`(\d+\.?\d*)%` at the head of the text — one or more integer digits, an
optional decimal point with further digits, then the literal percent sign. -/
def parseNumPercent (cs : List Char) : Option ℚ :=
  if cs.takeWhile Char.isDigit = [] then none
  else
    match cs.dropWhile Char.isDigit with
    | '%' :: _ => some ((digitsToNat (cs.takeWhile Char.isDigit) : ℕ) : ℚ)
    | '.' :: rest2 =>
        (match rest2.dropWhile Char.isDigit with
          | '%' :: _ =>
              some (((digitsToNat (cs.takeWhile Char.isDigit) : ℕ) : ℚ) +
                ((digitsToNat (rest2.takeWhile Char.isDigit) : ℕ) : ℚ) /
                  10 ^ (rest2.takeWhile Char.isDigit).length)
          | _ => none)
    | _ => none

/-- Continuation of the match after `[download`: the lazy `.*?\]` — try each
closing bracket in order — followed by `\s+` (at least one whitespace
character) and the percent token. -/
def scanClose : List Char → Option ℚ
  | [] => none
  | c :: rest =>
      if c = ']' then
        match rest with
        | w :: rest2 =>
            if w.isWhitespace then
              match parseNumPercent (rest2.dropWhile Char.isWhitespace) with
              | some q => some q
              | none => scanClose rest
            else scanClose rest
        | [] => scanClose rest
      else scanClose rest

/-- The regex search `/\[download.*?\]\s+(\d+\.?\d*)%/` applied by the
yt-dlp stdout handler (`src/unnamed/part_001`): find an occurrence of the
literal `[download`, then a closing bracket followed by whitespace and the
percent token. -/
def parseDownloadPercent : List Char → Option ℚ
  | [] => none
  | c :: rest =>
      if (c :: rest).take 9 = "[download".toList then
        match scanClose ((c :: rest).drop 9) with
        | some q => some q
        | none => parseDownloadPercent rest
      else parseDownloadPercent rest

/-- The yt-dlp stdout data handler (`src/unnamed/part_001`): when the output
chunk matches the progress pattern, store the parsed percentage as-is through
`updateProjectProgress` — no clamping is applied on this path. -/
def ytDlpStdoutUpdate (store : Option ProjectMetadata) (processId : String)
    (output : List Char) : Option ProjectMetadata :=
  match parseDownloadPercent output with
  | some percentage => (updateProjectProgress store processId percentage).1
  | none => store

/-- Result surfaced by `downloadYouTubeVideo`'s close handler. -/
structure DownloadResult where
  success : Bool
  error : Option String
  deriving DecidableEq

/-- The yt-dlp close handler (`src/unnamed/part_001` lines 80–103): on exit
code 0 with an existing non-empty output file, write the terminal progress
update of exactly 100 and resolve success; otherwise resolve failure with a
diagnostic message and write nothing. -/
def ytDlpOnClose (store : Option ProjectMetadata) (processId : String)
    (exitCode : ℤ) (outputFileExists : Bool) (fileSize : ℕ) (stderrData : String) :
    Option ProjectMetadata × DownloadResult :=
  if exitCode = 0 then
    if outputFileExists = true ∧ 0 < fileSize then
      ((updateProjectProgress store processId 100).1,
        { success := true, error := none })
    else
      (store, { success := false,
                error := some "Download completed but file is missing or empty" })
  else
    (store, { success := false,
              error := some ("yt-dlp process exited with code " ++ toString exitCode ++
                ". Error: " ++ stderrData) })

theorem parseNumPercent_nonneg (cs : List Char) (q : ℚ)
    (h : parseNumPercent cs = some q) : 0 ≤ q := by
  unfold parseNumPercent at h
  split_ifs at h
  revert h
  split
  · intro h
    rw [Option.some_inj] at h
    subst h
    positivity
  · split
    · intro h
      rw [Option.some_inj] at h
      subst h
      positivity
    · intro h
      exact absurd h (by simp)
  · intro h
    exact absurd h (by simp)

theorem scanClose_nonneg : ∀ (cs : List Char) (q : ℚ),
    scanClose cs = some q → 0 ≤ q := by
  intro cs
  induction cs with
  | nil => intro q h; exact absurd h (by simp [scanClose])
  | cons c rest ih =>
      intro q h
      simp only [scanClose] at h
      split_ifs at h
      · revert h
        split
        · split_ifs
          · split
            · intro h
              rw [Option.some_inj] at h
              subst h
              exact parseNumPercent_nonneg _ _ (by assumption)
            · intro h
              exact ih q h
          · intro h
            exact ih q h
        · intro h
          exact ih q h
      · exact ih q h

theorem parseDownloadPercent_nonneg : ∀ (cs : List Char) (q : ℚ),
    parseDownloadPercent cs = some q → 0 ≤ q := by
  intro cs
  induction cs with
  | nil => intro q h; exact absurd h (by simp [parseDownloadPercent])
  | cons c rest ih =>
      intro q h
      simp only [parseDownloadPercent] at h
      split_ifs at h
      · revert h
        split
        · intro h
          rw [Option.some_inj] at h
          subst h
          exact scanClose_nonneg _ _ (by assumption)
        · intro h
          exact ih q h
      · exact ih q h

/-- C9 counterexample: the yt-dlp stdout handler stores the parsed percentage
without an upper clamp, so the output chunk `[download]  150.0%` puts the
value 150 — outside [0, 100] — into the project's progress map. -/
theorem downloadPercent_not_clamped_cex :
    ∃ q : ℚ,
      parseDownloadPercent "[download]  150.0%".toList = some q ∧
      (ytDlpStdoutUpdate (some sampleMetadata) "d1" "[download]  150.0%".toList).bind
        (fun m => getEntry (m.progress.getD []) "d1") = some q ∧
      100 < q := by
  refine ⟨((150 : ℕ) : ℚ) + ((0 : ℕ) : ℚ) / 10 ^ 1, rfl, rfl, by norm_num⟩

/-- C9 (amended): `captioningProgress` writes are clamped above at 100 (and lie
in [0, 100] whenever the incoming phase value is nonnegative, which holds for
every call site); the terminal update written by a successfully completing
download is exactly 100; parsed download percentages are nonnegative but are
stored without an upper clamp (see the counterexample). -/
theorem progress_values_spec :
    (∀ (segs : List Segment) (idx : ℕ) (p : ℚ) (s : Segment),
      segs[idx]? = some s → s.captioningStatus = some "in-progress" →
      ∃ s' : Segment, (updateSegmentProgress segs idx p)[idx]? = some s' ∧
        s'.captioningProgress = some (min p 100) ∧
        min p 100 ≤ 100 ∧ (0 ≤ p → 0 ≤ min p 100)) ∧
    (∀ (m : ProjectMetadata) (pid : String) (fileSize : ℕ) (stderrData : String),
      0 < fileSize →
      (ytDlpOnClose (some m) pid 0 true fileSize stderrData).2.success = true ∧
      ((ytDlpOnClose (some m) pid 0 true fileSize stderrData).1.bind
        (fun m' => getEntry (m'.progress.getD []) pid)) = some 100) ∧
    (∀ (output : List Char) (q : ℚ), parseDownloadPercent output = some q → 0 ≤ q) := by
  refine ⟨?_, ?_, parseDownloadPercent_nonneg⟩
  · intro segs idx p s hs hstat
    refine ⟨_, listModify_getElem_eq _ idx segs s hs, ?_, min_le_right p 100, ?_⟩
    · rw [if_pos hstat]
    · intro hp
      exact le_min hp (by norm_num)
  · intro m pid fileSize stderrData hsize
    constructor
    · simp [ytDlpOnClose, hsize]
    · unfold ytDlpOnClose
      rw [if_pos rfl, if_pos (And.intro rfl hsize)]
      simp only [updateProjectProgress, getProjectMetadata, updateProjectMetadata,
        Option.some_bind]
      have hproj : (applyUpdates m
          { progress := some (progressMapWritten m pid 100) }).progress =
          some (progressMapWritten m pid 100) := rfl
      rw [hproj, Option.getD_some, progressMapWritten]
      exact getEntry_setEntry_self _ pid 100

/-- C9 witness: the amended statement applied to a concrete in-progress
segment, a concrete successful download close, and a concrete parsed token. -/
theorem progress_values_witness :
    (∃ s' : Segment,
      (updateSegmentProgress [sampleSegment1, sampleSegment2] 0 250)[0]? = some s' ∧
      s'.captioningProgress = some (min 250 100) ∧ min (250:ℚ) 100 ≤ 100) ∧
    ((ytDlpOnClose (some sampleMetadata) "d1" 0 true 1024 "").1.bind
      (fun m' => getEntry (m'.progress.getD []) "d1")) = some 100 ∧
    (0 : ℚ) ≤ ((42 : ℕ) : ℚ) := by
  obtain ⟨h1, h2, h3⟩ := progress_values_spec
  obtain ⟨s', hs1, hs2, hs3, -⟩ := h1 [sampleSegment1, sampleSegment2] 0 250
    sampleSegment1 rfl rfl
  refine ⟨⟨s', hs1, hs2, hs3⟩, (h2 sampleMetadata "d1" 1024 "" (by norm_num)).2, ?_⟩
  exact h3 "[download] 42%".toList ((42 : ℕ) : ℚ) rfl

end Brainrot
